import Mathlib

/-
Verification of the generation orchestrator in src/inference.py (function
`inference`).  The orchestrator drives three generation strategies (holistic,
independent, incremental) over a resumable Cartesian product of
(task, sample-index) pairs, checkpointing the full sample list after every
pair.  External collaborators (the model client `query`, the static-analysis
routines `get_todo_methods` / `retain_todo_method` / `replace_method`, the
extractor `extract_code`, and the JSONL reader/writer) are modelled as
abstract function parameters gathered in an environment record; the
orchestration logic itself is translated line by line.
-/

namespace JavaBench

/-- A benchmark task record as read from the JSONL data file (the fields of
`task` used by `inference`): `task_id`, `code`, `code_context`, `target`. -/
structure Task where
  task_id : String
  code : String
  code_context : String
  target : String
  deriving DecidableEq

/-- A todo-method descriptor as produced by `get_todo_methods`: the method
`name` and the occurrence index `seq` disambiguating repeated names.  The
orchestrator only ever reads these two fields of a descriptor. -/
structure Stub where
  name : String
  seq : Nat
  deriving DecidableEq

/-- One per-stub record appended to the `mediate` list in independent and
incremental modes: `name`, `seq`, `prompt`, `completion`. -/
structure MediateEntry where
  name : String
  seq : Nat
  prompt : String
  completion : String
  deriving DecidableEq

/-- One sample record appended to `samples`: holistic samples carry
`prompt`/`completion` (lines 71-76), independent and incremental samples carry
`completion`/`mediate` (lines 97-102 and 127-132). -/
inductive Sample where
  | holistic (task_id target prompt completion : String)
  | stubbed (task_id target completion : String) (mediate : List MediateEntry)
  deriving DecidableEq

/-- The `completion` field of a sample. -/
def sampleCompletion : Sample → String
  | Sample.holistic _ _ _ c => c
  | Sample.stubbed _ _ c _ => c

/-- The `mediate` field of a sample (empty for holistic samples, which carry
no such field). -/
def mediateOf : Sample → List MediateEntry
  | Sample.holistic _ _ _ _ => []
  | Sample.stubbed _ _ _ m => m

/-- The pair of arguments of one call to the model client `query(code,
code_context)` (line 29). -/
structure QueryCall where
  code : String
  code_context : String
  deriving DecidableEq

/-- The external collaborators used by the orchestrator.  `draws` abstracts
the stream of values drawn from the global random generator by
`random.shuffle`: the k-th draw is `draws k` (reduced modulo the requested
bound at the use site). -/
structure Env where
  get_todo_methods : String → List Stub
  retain_todo_method : String → String → Nat → String
  replace_method : String → String → String → Nat → String
  extract_code : String → String
  query : String → String → String × String
  draws : Nat → Nat

/-- The `--mode` option: holistic, independent or incremental. -/
inductive Mode where
  | holistic
  | independent
  | incremental
  deriving DecidableEq

/-- The `--incremental-mode` option: seq, rev or rand. -/
inductive IncMode where
  | seq
  | rev
  | rand
  deriving DecidableEq

/-- The configuration options of the orchestrator that the core loop reads. -/
structure Args where
  mode : Mode
  incremental_mode : IncMode
  num_sample : Nat
  deriving DecidableEq

/-- Default stub used only to totalise list indexing in the shuffle model and
in index-based statements. -/
def dStub : Stub := Stub.mk (String.mk []) 0

/-- The in-place tuple swap `x[i], x[j] = x[j], x[i]` performed by
`random.shuffle`: both right-hand sides are read from the original list,
then written back. -/
def listSwap (dflt : α) (l : List α) (i j : Nat) : List α :=
  (l.set i (l.getD j dflt)).set j (l.getD i dflt)

/-- The Fisher-Yates loop of CPython's `random.shuffle`: for `i` from
`len(x)-1` down to `1`, swap index `i` with a drawn index `j < i+1`; `k`
counts the draws consumed from the generator stream `ds`. -/
def shuffleAux (ds : Nat → Nat) : Nat → Nat → List Stub → List Stub × Nat
  | 0, k, l => (l, k)
  | m+1, k, l => shuffleAux ds m (k+1) (listSwap dStub l (m+1) (ds k % (m+2)))

/-- CPython's `random.shuffle(x)`: shuffles the list in place, returning the
new contents of the list object together with the advanced draw counter. -/
def pyShuffle (ds : Nat → Nat) (k : Nat) (l : List Stub) : List Stub × Nat :=
  shuffleAux ds (l.length - 1) k l

/-- The Ordering Policy of lines 108-111 of src/inference.py: `seq` leaves
`todo_methods` alone, `rev` rebinds it to `reversed(todo_methods)` (leaving
the original list object untouched), `rand` calls `random.shuffle` on it
(mutating the list object in place).  The three components returned are: the
traversal sequence the loop then iterates, the contents of the input list
object after the policy ran, and the draw counter after the policy ran. -/
def order (l : List Stub) (m : IncMode) (ds : Nat → Nat) (k : Nat) :
    List Stub × List Stub × Nat :=
  match m with
  | IncMode.seq => (l, l, k)
  | IncMode.rev => (l.reverse, l, k)
  | IncMode.rand => ((pyShuffle ds k l).1, (pyShuffle ds k l).1, (pyShuffle ds k l).2)

/-- One loop iteration of independent mode (lines 83-95): the isolation
source is built from `task.code` (the original task source), the model is
queried, the extracted code is spliced into the running `result`, and a
mediate entry and the query-call trace are appended. -/
def indepStep (env : Env) (task : Task)
    (acc : String × List MediateEntry × List QueryCall) (s : Stub) :
    String × List MediateEntry × List QueryCall :=
  let source := env.retain_todo_method task.code s.name s.seq
  let pr := env.query source task.code_context
  (env.replace_method acc.1 (env.extract_code pr.2) s.name s.seq,
   acc.2.1 ++ [MediateEntry.mk s.name s.seq pr.1 pr.2],
   acc.2.2 ++ [QueryCall.mk source task.code_context])

/-- One loop iteration of incremental mode (lines 113-125): identical to
`indepStep` except that the isolation source is built from the current
running `result` buffer `acc.1` instead of the original task source. -/
def incrStep (env : Env) (ctx : String)
    (acc : String × List MediateEntry × List QueryCall) (s : Stub) :
    String × List MediateEntry × List QueryCall :=
  let source := env.retain_todo_method acc.1 s.name s.seq
  let pr := env.query source ctx
  (env.replace_method acc.1 (env.extract_code pr.2) s.name s.seq,
   acc.2.1 ++ [MediateEntry.mk s.name s.seq pr.1 pr.2],
   acc.2.2 ++ [QueryCall.mk source ctx])

/-- Independent mode for one (task, sample-index) pair (lines 77-102):
`result` starts as the task source, `get_todo_methods` is called once on it,
and the stubs are processed in the locator's order by `indepStep`.  Returns
the appended sample and the trace of model-client calls made. -/
def independentPair (env : Env) (task : Task) : Sample × List QueryCall :=
  let result := task.code
  let stubs := env.get_todo_methods result
  let st := stubs.foldl (indepStep env task)
    (result, ([] : List MediateEntry), ([] : List QueryCall))
  (Sample.stubbed task.task_id task.target st.1 st.2.1, st.2.2)

/-- Incremental mode for one (task, sample-index) pair (lines 103-132):
`result` starts as the task source, `get_todo_methods` is called once on it
(before any splice), the Ordering Policy fixes the traversal, and the stubs
are processed by `incrStep`.  Returns the appended sample, the trace of
model-client calls, and the advanced draw counter. -/
def incrementalPair (env : Env) (task : Task) (im : IncMode) (k : Nat) :
    Sample × List QueryCall × Nat :=
  let result := task.code
  let stubs := env.get_todo_methods result
  let ord := order stubs im env.draws k
  let st := ord.1.foldl (incrStep env task.code_context)
    (result, ([] : List MediateEntry), ([] : List QueryCall))
  (Sample.stubbed task.task_id task.target st.1 st.2.1, st.2.2, ord.2.2)

/-- One splice of generated code into buffer `r`, with the isolation source
built from `iso`: `replace_method(r, extract_code(query(retain_todo_method(
iso, name, seq), ctx).outputs), name, seq)`. -/
def splFrom (env : Env) (ctx iso r : String) (s : Stub) : String :=
  env.replace_method r
    (env.extract_code (env.query (env.retain_todo_method iso s.name s.seq) ctx).2)
    s.name s.seq

/-- The incremental splice step: isolation source and splice target are the
same buffer. -/
def spl (env : Env) (ctx : String) (r : String) (s : Stub) : String :=
  splFrom env ctx r r s

/-- The mediate entry recorded in independent mode for stub `s`: prompt and
completion of the query on the isolation of `s` from the original source. -/
def indepEntry (env : Env) (task : Task) (s : Stub) : MediateEntry :=
  MediateEntry.mk s.name s.seq
    (env.query (env.retain_todo_method task.code s.name s.seq) task.code_context).1
    (env.query (env.retain_todo_method task.code s.name s.seq) task.code_context).2

/-- The mediate entry recorded in incremental mode for stub `s` when the
running buffer is `r`. -/
def incEntry (env : Env) (ctx : String) (r : String) (s : Stub) : MediateEntry :=
  MediateEntry.mk s.name s.seq
    (env.query (env.retain_todo_method r s.name s.seq) ctx).1
    (env.query (env.retain_todo_method r s.name s.seq) ctx).2

/-- The running `result` buffer after incremental mode has processed the
stubs `ss` starting from buffer `r`. -/
def incBuf (env : Env) (ctx : String) (r : String) : List Stub → String
  | [] => r
  | s :: ss => incBuf env ctx (spl env ctx r s) ss

/-- The mediate list produced when incremental mode processes the stubs `ss`
starting from buffer `r`. -/
def incEntriesAux (env : Env) (ctx : String) (r : String) :
    List Stub → List MediateEntry
  | [] => []
  | s :: ss => incEntry env ctx r s :: incEntriesAux env ctx (spl env ctx r s) ss

/-- The query-call trace produced when incremental mode processes the stubs
`ss` starting from buffer `r`. -/
def incCallsAux (env : Env) (ctx : String) (r : String) :
    List Stub → List QueryCall
  | [] => []
  | s :: ss => QueryCall.mk (env.retain_todo_method r s.name s.seq) ctx ::
      incCallsAux env ctx (spl env ctx r s) ss

/-- One (task, sample-index) pair processed by the body of the main loop
(lines 69-132), dispatching on `args.mode`.  Returns the sample appended for
the pair, the trace of model-client calls, and the advanced draw counter. -/
def processPair (env : Env) (args : Args) (task : Task) (k : Nat) :
    Sample × List QueryCall × Nat :=
  match args.mode with
  | Mode.holistic =>
      (Sample.holistic task.task_id task.target
        (env.query task.code task.code_context).1
        (env.query task.code task.code_context).2,
       [QueryCall.mk task.code task.code_context], k)
  | Mode.independent =>
      ((independentPair env task).1, (independentPair env task).2, k)
  | Mode.incremental => incrementalPair env task args.incremental_mode k

/-- The pair stream `itertools.product(tasks, range(args.num_sample))` of
line 68: the Cartesian product in task-major, sample-minor order. -/
def runPairs : List Task → Nat → List (Task × Nat)
  | [], _ => []
  | t :: ts, n => (List.range n).map (fun i => (t, i)) ++ runPairs ts n

/-- The observable state of a run of the main loop: the in-memory `samples`
list, the successive file states persisted by `write_jsonl` (one per
completed pair), the concatenated model-client call trace, the pairs the
loop body actually processed, and the draw counter. -/
structure RunSt where
  samples : List Sample
  writes : List (List Sample)
  calls : List QueryCall
  pairs : List (Task × Nat)
  k : Nat
  deriving Inhabited

/-- The main loop of lines 68-133 over the remaining pair list: each
iteration processes one pair, appends the new sample to `samples`, and then
persists the entire `samples` list before the next pair starts.  Modelled
from the spec for the one collaborator not under src/: `write_jsonl`
(app/util/io) persists the full record list as one whole-file overwrite, so
each persisted file state is recorded as the complete list written. -/
def runLoop (env : Env) (args : Args) : List (Task × Nat) → RunSt → RunSt
  | [], st => st
  | p :: ps, st =>
      runLoop env args ps
        (RunSt.mk (st.samples ++ [(processPair env args p.1 st.k).1])
          (st.writes ++ [st.samples ++ [(processPair env args p.1 st.k).1]])
          (st.calls ++ (processPair env args p.1 st.k).2.1)
          (st.pairs ++ [p])
          (processPair env args p.1 st.k).2.2)

/-- A whole run of `inference` (lines 66-133): `tasks` is the loaded task
list, `init` the sample list read back from the output file at startup
(empty when the file does not exist), `k` the initial draw counter.  The
loop iterates `islice(product(tasks, range(num_sample)), len(samples),
None)`, i.e. the pair stream with the first `init.length` pairs dropped. -/
def run (env : Env) (args : Args) (tasks : List Task) (init : List Sample)
    (k : Nat) : RunSt :=
  runLoop env args ((runPairs tasks args.num_sample).drop init.length)
    (RunSt.mk init [] [] [] k)

/-- The list of new samples a run appends when started on the remaining pair
list `todo` with draw counter `k`. -/
def newsOf (env : Env) (args : Args) : List (Task × Nat) → Nat → List Sample
  | [], _ => []
  | p :: ps, k => (processPair env args p.1 k).1 ::
      newsOf env args ps (processPair env args p.1 k).2.2

/-- The error taxonomy of section 7 of the spec: parse, stub-not-found and
extraction errors from the static-analysis collaborators, and model-client
errors.  None of them is caught inside `inference`. -/
inductive InfErr where
  | parse
  | stubNotFound
  | extraction
  | model
  deriving DecidableEq

/-- The external collaborators with their failure modes made explicit: each
call either returns a value or raises an error that propagates. -/
structure EEnv where
  get_todo_methods : String → Except InfErr (List Stub)
  retain_todo_method : String → String → Nat → Except InfErr String
  replace_method : String → String → String → Nat → Except InfErr String
  extract_code : String → Except InfErr String
  query : String → String → Except InfErr (String × String)
  draws : Nat → Nat

/-- One loop iteration of independent mode with failure propagation: any
error raised by a collaborator aborts the iteration and propagates. -/
def indepStepE (env : EEnv) (task : Task) (acc : String × List MediateEntry)
    (s : Stub) : Except InfErr (String × List MediateEntry) := do
  let source ← env.retain_todo_method task.code s.name s.seq
  let pr ← env.query source task.code_context
  let code ← env.extract_code pr.2
  let r ← env.replace_method acc.1 code s.name s.seq
  pure (r, acc.2 ++ [MediateEntry.mk s.name s.seq pr.1 pr.2])

/-- One loop iteration of incremental mode with failure propagation. -/
def incrStepE (env : EEnv) (ctx : String) (acc : String × List MediateEntry)
    (s : Stub) : Except InfErr (String × List MediateEntry) := do
  let source ← env.retain_todo_method acc.1 s.name s.seq
  let pr ← env.query source ctx
  let code ← env.extract_code pr.2
  let r ← env.replace_method acc.1 code s.name s.seq
  pure (r, acc.2 ++ [MediateEntry.mk s.name s.seq pr.1 pr.2])

/-- Independent mode for one pair with failure propagation. -/
def independentPairE (env : EEnv) (task : Task) : Except InfErr Sample := do
  let result := task.code
  let stubs ← env.get_todo_methods result
  let st ← stubs.foldlM (indepStepE env task) (result, ([] : List MediateEntry))
  pure (Sample.stubbed task.task_id task.target st.1 st.2)

/-- Incremental mode for one pair with failure propagation. -/
def incrementalPairE (env : EEnv) (task : Task) (im : IncMode) (k : Nat) :
    Except InfErr (Sample × Nat) := do
  let result := task.code
  let stubs ← env.get_todo_methods result
  let ord := order stubs im env.draws k
  let st ← ord.1.foldlM (incrStepE env task.code_context)
    (result, ([] : List MediateEntry))
  pure (Sample.stubbed task.task_id task.target st.1 st.2, ord.2.2)

/-- One (task, sample-index) pair processed with failure propagation. -/
def processPairE (env : EEnv) (args : Args) (task : Task) (k : Nat) :
    Except InfErr (Sample × Nat) :=
  match args.mode with
  | Mode.holistic => do
      let pr ← env.query task.code task.code_context
      pure (Sample.holistic task.task_id task.target pr.1 pr.2, k)
  | Mode.independent => do
      let s ← independentPairE env task
      pure (s, k)
  | Mode.incremental => incrementalPairE env task args.incremental_mode k

/-- The outcome of a possibly failing run: the in-memory `samples` list, the
persisted file states, the pairs left unprocessed (beginning with the failed
pair when an error occurred), the uncaught error if any, and the draw
counter at the moment the run ended. -/
structure RunEOut where
  samples : List Sample
  writes : List (List Sample)
  rem : List (Task × Nat)
  err : Option InfErr
  k : Nat

/-- The main loop with failure propagation: `inference` contains no
try/except, so the first error raised while processing a pair ends the run
at once — the current pair's partial state is discarded, nothing further is
persisted, and the remaining pairs are left unprocessed. -/
def runELoop (env : EEnv) (args : Args) :
    List (Task × Nat) → List Sample → List (List Sample) → Nat → RunEOut
  | [], samples, writes, k => RunEOut.mk samples writes [] none k
  | p :: ps, samples, writes, k =>
      match processPairE env args p.1 k with
      | Except.error e => RunEOut.mk samples writes (p :: ps) (some e) k
      | Except.ok sk => runELoop env args ps (samples ++ [sk.1])
          (writes ++ [samples ++ [sk.1]]) sk.2

/-- A whole possibly failing run of `inference`, resuming after the
`init.length` already-persisted samples. -/
def runEx (env : EEnv) (args : Args) (tasks : List Task) (init : List Sample)
    (k : Nat) : RunEOut :=
  runELoop env args ((runPairs tasks args.num_sample).drop init.length) init [] k

/-- The list of samples successfully appended before the first failure when
the possibly failing run starts on the remaining pair list `todo`. -/
def newsE (env : EEnv) (args : Args) : List (Task × Nat) → Nat → List Sample
  | [], _ => []
  | p :: ps, k =>
      match processPairE env args p.1 k with
      | Except.error _ => []
      | Except.ok sk => sk.1 :: newsE env args ps sk.2

/-- Default pair used only to totalise head access in statements about the
failed pair. -/
def dPair : Task × Nat := (Task.mk (String.mk []) (String.mk []) (String.mk []) (String.mk []), 0)

/-- Incremental generation as the spec describes it, written only for
comparison with `incrementalPair` (which is translated from the code).  It
follows the spec's words in section 4.5 and section 9: the stub list is
re-located against the mutated running buffer on every iteration (so after
every splice), the next stub of the re-located list is processed, and the
loop ends when the re-located list is empty; `fuel` bounds the iteration
count.  It returns the final buffer and the mediate list. -/
def incrementalRelocateSpec (env : Env) (ctx : String) :
    Nat → String → List MediateEntry → String × List MediateEntry
  | 0, r, med => (r, med)
  | fuel+1, r, med =>
      match env.get_todo_methods r with
      | [] => (r, med)
      | s :: _ =>
          incrementalRelocateSpec env ctx fuel (spl env ctx r s)
            (med ++ [incEntry env ctx r s])

/-- Setting index `m` of a list to `x` and consing the displaced element on
the front is a permutation of consing `x` itself: the core step behind the
transposition permutation. -/
theorem getD_cons_set_perm (dflt x : α) :
    ∀ (xs : List α) (m : Nat), m < xs.length →
      List.Perm (xs.getD m dflt :: xs.set m x) (x :: xs) := by
  intro xs
  induction xs with
  | nil => intro m h; simp at h
  | cons y ys ih =>
      intro m h
      cases m with
      | zero =>
          simp only [List.getD_cons_zero, List.set_cons_zero]
          exact List.Perm.swap x y ys
      | succ m =>
          have h' : m < ys.length := by simpa using h
          simp only [List.getD_cons_succ, List.set_cons_succ]
          exact ((List.Perm.swap y (ys.getD m dflt) (ys.set m x)).trans
            ((ih m h').cons y)).trans (List.Perm.swap x y ys)

/-- A python tuple swap of two in-bounds indices permutes the list. -/
theorem listSwap_perm (dflt : α) :
    ∀ (l : List α) (i j : Nat), i < l.length → j < l.length →
      List.Perm (listSwap dflt l i j) l
  | [], _, _, hi, _ => absurd hi (by simp)
  | x :: xs, 0, 0, _, _ => by
      simp only [listSwap, List.getD_cons_zero, List.set_cons_zero]
      exact List.Perm.refl _
  | x :: xs, 0, m+1, _, hj => by
      have hm : m < xs.length := by simpa using hj
      simpa [listSwap] using getD_cons_set_perm dflt x xs m hm
  | x :: xs, k+1, 0, hi, _ => by
      have hk : k < xs.length := by simpa using hi
      simpa [listSwap] using getD_cons_set_perm dflt x xs k hk
  | x :: xs, k+1, m+1, hi, hj => by
      have hk : k < xs.length := by simpa using hi
      have hm : m < xs.length := by simpa using hj
      simpa [listSwap] using (listSwap_perm dflt xs k m hk hm).cons x

/-- The tuple swap preserves list length. -/
theorem listSwap_length (dflt : α) (l : List α) (i j : Nat) :
    (listSwap dflt l i j).length = l.length := by
  simp [listSwap]

/-- Every pass of the Fisher-Yates loop permutes the list. -/
theorem shuffleAux_perm (ds : Nat → Nat) :
    ∀ (m k : Nat) (l : List Stub), m < l.length →
      List.Perm (shuffleAux ds m k l).1 l
  | 0, _, l, _ => List.Perm.refl l
  | m+1, k, l, h => by
      have hlen : (listSwap dStub l (m+1) (ds k % (m+2))).length = l.length :=
        listSwap_length dStub l (m+1) (ds k % (m+2))
      have hmod : ds k % (m+2) < m+2 := Nat.mod_lt _ (by omega)
      have hj : ds k % (m+2) < l.length := by omega
      have hrec : m < (listSwap dStub l (m+1) (ds k % (m+2))).length := by omega
      exact (shuffleAux_perm ds m (k+1) _ hrec).trans
        (listSwap_perm dStub l (m+1) (ds k % (m+2)) h hj)

/-- random.shuffle returns (and leaves in place) a permutation of its
input. -/
theorem pyShuffle_perm (ds : Nat → Nat) (k : Nat) (l : List Stub) :
    List.Perm (pyShuffle ds k l).1 l := by
  cases l with
  | nil => exact List.Perm.refl _
  | cons x xs =>
      exact shuffleAux_perm ds ((x :: xs).length - 1) k (x :: xs)
        (by simp only [List.length_cons]; omega)

/-- The traversal the Ordering Policy returns has the length of its input
under every mode. -/
theorem order_fst_length (l : List Stub) (m : IncMode) (ds : Nat → Nat) (k : Nat) :
    (order l m ds k).1.length = l.length := by
  cases m with
  | seq => rfl
  | rev => simp [order]
  | rand => exact (pyShuffle_perm ds k l).length_eq

/-- Characterisation of the independent-mode loop: the final buffer is the
left fold of splices into the running result, the mediate list and the call
trace are maps over the stub list, and every isolation source is built from
the original task source. -/
theorem indep_foldl (env : Env) (task : Task) :
    ∀ (ss : List Stub) (r : String) (med : List MediateEntry) (cs : List QueryCall),
      ss.foldl (indepStep env task) (r, med, cs) =
        (ss.foldl (splFrom env task.code_context task.code) r,
         med ++ ss.map (indepEntry env task),
         cs ++ ss.map (fun s =>
           QueryCall.mk (env.retain_todo_method task.code s.name s.seq) task.code_context)) := by
  intro ss
  induction ss with
  | nil => intro r med cs; simp
  | cons s ss ih =>
      intro r med cs
      simp only [List.foldl_cons, List.map_cons]
      rw [show indepStep env task (r, med, cs) s =
        (splFrom env task.code_context task.code r s,
         med ++ [indepEntry env task s],
         cs ++ [QueryCall.mk (env.retain_todo_method task.code s.name s.seq)
           task.code_context]) from rfl]
      rw [ih]
      simp

/-- Characterisation of the incremental-mode loop: the final buffer, the
mediate list and the call trace are produced by the buffer-threading
recursions `incBuf`, `incEntriesAux` and `incCallsAux`. -/
theorem incr_foldl (env : Env) (ctx : String) :
    ∀ (ss : List Stub) (r : String) (med : List MediateEntry) (cs : List QueryCall),
      ss.foldl (incrStep env ctx) (r, med, cs) =
        (incBuf env ctx r ss, med ++ incEntriesAux env ctx r ss,
         cs ++ incCallsAux env ctx r ss) := by
  intro ss
  induction ss with
  | nil => intro r med cs; simp [incBuf, incEntriesAux, incCallsAux]
  | cons s ss ih =>
      intro r med cs
      simp only [List.foldl_cons, incBuf, incEntriesAux, incCallsAux]
      rw [show incrStep env ctx (r, med, cs) s =
        (spl env ctx r s, med ++ [incEntry env ctx r s],
         cs ++ [QueryCall.mk (env.retain_todo_method r s.name s.seq) ctx]) from rfl]
      rw [ih]
      simp

/-- The incremental mediate list exposed by index: the entry at position `i`
is built from the buffer obtained by splicing the first `i` stubs. -/
theorem incEntriesAux_eq_range (env : Env) (ctx : String) :
    ∀ (ss : List Stub) (r : String),
      incEntriesAux env ctx r ss = (List.range ss.length).map
        (fun i => incEntry env ctx (incBuf env ctx r (ss.take i)) (ss.getD i dStub)) := by
  intro ss
  induction ss with
  | nil => intro r; simp [incEntriesAux]
  | cons s ss ih =>
      intro r
      rw [show incEntriesAux env ctx r (s :: ss) =
        incEntry env ctx r s :: incEntriesAux env ctx (spl env ctx r s) ss from rfl]
      rw [ih (spl env ctx r s)]
      rw [List.length_cons, List.range_succ_eq_map, List.map_cons, List.map_map]
      rfl

/-- The incremental call trace exposed by index: the call at position `i`
isolates from the buffer obtained by splicing the first `i` stubs. -/
theorem incCallsAux_eq_range (env : Env) (ctx : String) :
    ∀ (ss : List Stub) (r : String),
      incCallsAux env ctx r ss = (List.range ss.length).map
        (fun i => QueryCall.mk
          (env.retain_todo_method (incBuf env ctx r (ss.take i))
            (ss.getD i dStub).name (ss.getD i dStub).seq) ctx) := by
  intro ss
  induction ss with
  | nil => intro r; simp [incCallsAux]
  | cons s ss ih =>
      intro r
      rw [show incCallsAux env ctx r (s :: ss) =
        QueryCall.mk (env.retain_todo_method r s.name s.seq) ctx ::
          incCallsAux env ctx (spl env ctx r s) ss from rfl]
      rw [ih (spl env ctx r s)]
      rw [List.length_cons, List.range_succ_eq_map, List.map_cons, List.map_map]
      rfl

/-- The (name, seq) projection of the incremental mediate list is the
(name, seq) projection of the traversed stub list, whatever the buffer. -/
theorem incEntriesAux_proj (env : Env) (ctx : String) :
    ∀ (ss : List Stub) (r : String),
      (incEntriesAux env ctx r ss).map (fun m => (m.name, m.seq)) =
        ss.map (fun s => (s.name, s.seq)) := by
  intro ss
  induction ss with
  | nil => intro r; simp [incEntriesAux]
  | cons s ss ih => intro r; simp [incEntriesAux, incEntry, ih]

/-- The incremental mediate list has one entry per traversed stub. -/
theorem incEntriesAux_length (env : Env) (ctx : String) :
    ∀ (ss : List Stub) (r : String),
      (incEntriesAux env ctx r ss).length = ss.length := by
  intro ss
  induction ss with
  | nil => intro r; simp [incEntriesAux]
  | cons s ss ih => intro r; simp [incEntriesAux, ih]

/-- The pair stream has exactly `tasks.length * num_sample` elements. -/
theorem runPairs_length (tasks : List Task) (n : Nat) :
    (runPairs tasks n).length = tasks.length * n := by
  induction tasks with
  | nil => simp [runPairs]
  | cons t ts ih =>
      simp only [runPairs, List.length_append, List.length_map,
        List.length_range, List.length_cons, ih, Nat.succ_mul]
      omega

/-- The loop records exactly the remaining pairs it was started on, in
order. -/
theorem runLoop_pairs (env : Env) (args : Args) :
    ∀ (todo : List (Task × Nat)) (st : RunSt),
      (runLoop env args todo st).pairs = st.pairs ++ todo := by
  intro todo
  induction todo with
  | nil => intro st; simp [runLoop]
  | cons p ps ih =>
      intro st
      simp only [runLoop]
      rw [ih]
      simp

/-- The loop leaves the in-memory sample list equal to its starting value
followed by the newly produced samples, one per remaining pair, in order. -/
theorem runLoop_samples (env : Env) (args : Args) :
    ∀ (todo : List (Task × Nat)) (st : RunSt),
      (runLoop env args todo st).samples = st.samples ++ newsOf env args todo st.k := by
  intro todo
  induction todo with
  | nil => intro st; simp [runLoop, newsOf]
  | cons p ps ih =>
      intro st
      simp only [runLoop, newsOf]
      rw [ih]
      simp

/-- One new sample is appended per remaining pair. -/
theorem newsOf_length (env : Env) (args : Args) :
    ∀ (todo : List (Task × Nat)) (k : Nat),
      (newsOf env args todo k).length = todo.length := by
  intro todo
  induction todo with
  | nil => intro k; simp [newsOf]
  | cons p ps ih => intro k; simp [newsOf, ih]

/-- The successive persisted file states: the i-th write is the starting
sample list followed by the first `i+1` new samples — the full in-memory
list at the moment the i-th pair completed. -/
theorem runLoop_writes (env : Env) (args : Args) :
    ∀ (todo : List (Task × Nat)) (st : RunSt),
      (runLoop env args todo st).writes = st.writes ++
        (List.range todo.length).map
          (fun i => st.samples ++ (newsOf env args todo st.k).take (i+1)) := by
  intro todo
  induction todo with
  | nil => intro st; simp [runLoop]
  | cons p ps ih =>
      intro st
      simp only [runLoop, newsOf]
      rw [ih]
      rw [List.length_cons, List.range_succ_eq_map, List.map_cons, List.map_map]
      simp only [Function.comp_def, List.take_succ_cons, List.take_zero]
      simp [List.append_assoc]

/-- The failing loop leaves the sample list equal to its starting value
followed by the samples of the successfully completed pairs. -/
theorem runELoop_samples (env : EEnv) (args : Args) :
    ∀ (todo : List (Task × Nat)) (samples : List Sample)
      (writes : List (List Sample)) (k : Nat),
      (runELoop env args todo samples writes k).samples =
        samples ++ newsE env args todo k := by
  intro todo
  induction todo with
  | nil => intro samples writes k; simp [runELoop, newsE]
  | cons p ps ih =>
      intro samples writes k
      cases h : processPairE env args p.1 k with
      | error e => simp [runELoop, newsE, h]
      | ok sk => simp [runELoop, newsE, h, ih]

/-- The failing loop persists exactly one full-list write per successfully
completed pair, and nothing for the failed pair. -/
theorem runELoop_writes (env : EEnv) (args : Args) :
    ∀ (todo : List (Task × Nat)) (samples : List Sample)
      (writes : List (List Sample)) (k : Nat),
      (runELoop env args todo samples writes k).writes = writes ++
        (List.range (newsE env args todo k).length).map
          (fun i => samples ++ (newsE env args todo k).take (i+1)) := by
  intro todo
  induction todo with
  | nil => intro samples writes k; simp [runELoop, newsE]
  | cons p ps ih =>
      intro samples writes k
      cases h : processPairE env args p.1 k with
      | error e => simp [runELoop, newsE, h]
      | ok sk =>
          simp only [runELoop, newsE, h]
          rw [ih]
          rw [List.length_cons, List.range_succ_eq_map, List.map_cons, List.map_map]
          simp only [Function.comp_def, List.take_succ_cons, List.take_zero]
          simp [List.append_assoc]

/-- Dropping the completed pairs from the remaining pair list yields exactly
the unprocessed remainder the failing loop reports. -/
theorem runELoop_rem (env : EEnv) (args : Args) :
    ∀ (todo : List (Task × Nat)) (samples : List Sample)
      (writes : List (List Sample)) (k : Nat),
      todo.drop (newsE env args todo k).length =
        (runELoop env args todo samples writes k).rem := by
  intro todo
  induction todo with
  | nil => intro samples writes k; simp [runELoop, newsE]
  | cons p ps ih =>
      intro samples writes k
      cases h : processPairE env args p.1 k with
      | error e => simp [runELoop, newsE, h]
      | ok sk =>
          simp only [runELoop, newsE, h, List.length_cons, List.drop_succ_cons]
          exact ih (samples ++ [sk.1]) (writes ++ [samples ++ [sk.1]]) sk.2

/-- When the failing loop reports an error, the unprocessed remainder is
nonempty, its head is the failed pair, and re-processing that pair at the
reported draw counter reproduces exactly the reported error. -/
theorem runELoop_err (env : EEnv) (args : Args) :
    ∀ (todo : List (Task × Nat)) (samples : List Sample)
      (writes : List (List Sample)) (k : Nat) (e : InfErr),
      (runELoop env args todo samples writes k).err = some e →
      (runELoop env args todo samples writes k).rem ≠ [] ∧
      processPairE env args
        ((runELoop env args todo samples writes k).rem.headD dPair).1
        (runELoop env args todo samples writes k).k = Except.error e := by
  intro todo
  induction todo with
  | nil => intro samples writes k e h; simp [runELoop] at h
  | cons p ps ih =>
      intro samples writes k e h
      cases hp : processPairE env args p.1 k with
      | error e' =>
          simp only [runELoop, hp] at h ⊢
          cases h
          exact ⟨by simp, by simpa using hp⟩
      | ok sk =>
          simp only [runELoop, hp] at h ⊢
          exact ih (samples ++ [sk.1]) (writes ++ [samples ++ [sk.1]]) sk.2 e h

/-- Closed form of one independent-mode pair: completion is the fold of
splices whose isolation source is always the original task source, mediate
and the call trace are maps over the single locator call. -/
theorem independentPair_eq (env : Env) (task : Task) :
    independentPair env task =
      (Sample.stubbed task.task_id task.target
        ((env.get_todo_methods task.code).foldl
          (splFrom env task.code_context task.code) task.code)
        ((env.get_todo_methods task.code).map (indepEntry env task)),
       (env.get_todo_methods task.code).map (fun s =>
         QueryCall.mk (env.retain_todo_method task.code s.name s.seq)
           task.code_context)) := by
  simp only [independentPair]
  rw [indep_foldl]
  simp

/-- Closed form of one incremental-mode pair: the locator runs once on the
original task source, the Ordering Policy fixes the traversal, and buffer,
mediate and calls are the buffer-threading recursions over that traversal. -/
theorem incrementalPair_eq (env : Env) (task : Task) (im : IncMode) (k : Nat) :
    incrementalPair env task im k =
      (Sample.stubbed task.task_id task.target
        (incBuf env task.code_context task.code
          ((order (env.get_todo_methods task.code) im env.draws k).1))
        (incEntriesAux env task.code_context task.code
          ((order (env.get_todo_methods task.code) im env.draws k).1)),
       incCallsAux env task.code_context task.code
         ((order (env.get_todo_methods task.code) im env.draws k).1),
       (order (env.get_todo_methods task.code) im env.draws k).2.2) := by
  simp only [incrementalPair]
  rw [incr_foldl]
  simp

/-- Concrete task used to exhibit the once-upfront location behaviour. -/
def task₀ : Task := ⟨"t", "S", "c", "g"⟩

/-- Concrete environment exercising the incremental loop: the locator finds
the two stubs a#0 and b#0 in the original source and nothing in any mutated
buffer, and every splice appends one mark to the buffer. -/
def env₀ : Env :=
  ⟨fun s => if s = task₀.code then [⟨"a", 0⟩, ⟨"b", 0⟩] else [],
   fun s _ _ => s,
   fun s _ _ _ => s ++ "!",
   fun o => o,
   fun c _ => ("p", c),
   fun _ => 0⟩

/-- C1 counterexample: on `env₀`/`task₀` the code (which locates stubs once
upfront) splices both located stubs and ends with completion "S!!", while
the re-locate-on-every-iteration behaviour the claim describes stops after
one splice (the mutated buffer "S!" contains no stubs) and ends with "S!".
The two disagree, so the claim as stated is false of the code. -/
theorem c1_counterexample :
    sampleCompletion (incrementalPair env₀ task₀ IncMode.seq 0).1 ≠
      (incrementalRelocateSpec env₀ task₀.code_context 5 task₀.code []).1 := by
  decide

/-- C1 amended: in incremental mode the stub list is located exactly once
per pair, against the result buffer before any splice — at which point that
buffer still equals the original task source — and is then only reordered by
the Ordering Policy; it is never re-located after a splice.  (Only each
stub's isolation context is rebuilt from the mutated buffer, per C6.)  The
processed mediate sequence is accordingly the ordered projection of the
single locator call on the original source. -/
theorem c1_located_once_amended (env : Env) (task : Task) (im : IncMode) (k : Nat) :
    (mediateOf (incrementalPair env task im k).1).map (fun m => (m.name, m.seq)) =
      ((order (env.get_todo_methods task.code) im env.draws k).1).map
        (fun s => (s.name, s.seq)) := by
  rw [incrementalPair_eq]
  exact incEntriesAux_proj env task.code_context _ task.code

/-- C2 counterexample: under mode rand the Ordering Policy calls
random.shuffle, which swaps list elements in place: on the two-stub list
[a#0, b#0] with a generator stream drawing 0, the input list object holds
[b#0, a#0] after the call — not element-for-element what it was before. -/
theorem c2_counterexample :
    (order [⟨"a", 0⟩, ⟨"b", 0⟩] IncMode.rand (fun _ => 0) 0).2.1 ≠
      ([⟨"a", 0⟩, ⟨"b", 0⟩] : List Stub) := by
  decide

/-- C2 amended: the Ordering Policy is pure and non-mutating for seq and rev
(it returns the identity, respectively reversed, traversal, leaves the input
list object untouched and draws nothing from the random generator), but for
rand it shuffles the input list object in place — after the call the input
list holds the returned traversal, a permutation of the original elements —
and consumes draws from the global generator. -/
theorem c2_order_amended (l : List Stub) (ds : Nat → Nat) (k : Nat) :
    order l IncMode.seq ds k = (l, l, k) ∧
    order l IncMode.rev ds k = (l.reverse, l, k) ∧
    (order l IncMode.rand ds k).2.1 = (order l IncMode.rand ds k).1 ∧
    List.Perm (order l IncMode.rand ds k).1 l :=
  ⟨rfl, rfl, rfl, pyShuffle_perm ds k l⟩

/-- C5: independent mode locates stubs once against the original task
source, processes them in the locator's natural order with no reordering,
builds every isolation context from the original unmodified source (never
from the running buffer), splices each extracted result into a running
buffer that starts as the original source, and the sample's completion is
that final accumulated buffer, with one mediate entry per stub. -/
theorem c5_independent_mode (env : Env) (task : Task) :
    (independentPair env task).2 =
      (env.get_todo_methods task.code).map (fun s =>
        QueryCall.mk (env.retain_todo_method task.code s.name s.seq)
          task.code_context) ∧
    (independentPair env task).1 = Sample.stubbed task.task_id task.target
      ((env.get_todo_methods task.code).foldl
        (splFrom env task.code_context task.code) task.code)
      ((env.get_todo_methods task.code).map (indepEntry env task)) := by
  rw [independentPair_eq]
  exact ⟨rfl, rfl⟩

/-- C6: the incremental traversal follows incremental_mode — seq is the
locator's natural order, rev exactly reverses it, rand is a permutation of
the same stubs — and the i-th model call isolates its stub from the current
result buffer, i.e. from the buffer obtained by splicing the generated
bodies of the i stubs processed earlier, so later stubs see earlier stubs'
generated implementations. -/
theorem c6_incremental_order_and_context (env : Env) (task : Task) (k : Nat) :
    (order (env.get_todo_methods task.code) IncMode.seq env.draws k).1 =
      env.get_todo_methods task.code ∧
    (order (env.get_todo_methods task.code) IncMode.rev env.draws k).1 =
      (env.get_todo_methods task.code).reverse ∧
    List.Perm (order (env.get_todo_methods task.code) IncMode.rand env.draws k).1
      (env.get_todo_methods task.code) ∧
    ∀ im : IncMode, (incrementalPair env task im k).2.1 =
      (List.range ((order (env.get_todo_methods task.code) im env.draws k).1).length).map
        (fun i => QueryCall.mk
          (env.retain_todo_method
            (incBuf env task.code_context task.code
              (((order (env.get_todo_methods task.code) im env.draws k).1).take i))
            ((((order (env.get_todo_methods task.code) im env.draws k).1).getD i dStub)).name
            ((((order (env.get_todo_methods task.code) im env.draws k).1).getD i dStub)).seq)
          task.code_context) := by
  refine ⟨rfl, rfl, pyShuffle_perm env.draws k _, ?_⟩
  intro im
  rw [incrementalPair_eq]
  exact incCallsAux_eq_range env task.code_context _ task.code

/-- C8: for every sample of independent or incremental mode, mediate has
exactly one entry per stub the locator found in the task's source when the
pair began (the buffer then still being the original source), the entries
are in processing order, and each carries the stub's name, seq, and the
prompt and completion of its model call. -/
theorem c8_mediate_shape (env : Env) (task : Task) (im : IncMode) (k : Nat) :
    mediateOf (independentPair env task).1 =
      (env.get_todo_methods task.code).map (indepEntry env task) ∧
    (mediateOf (incrementalPair env task im k).1).length =
      (env.get_todo_methods task.code).length ∧
    mediateOf (incrementalPair env task im k).1 =
      (List.range ((order (env.get_todo_methods task.code) im env.draws k).1).length).map
        (fun i => incEntry env task.code_context
          (incBuf env task.code_context task.code
            (((order (env.get_todo_methods task.code) im env.draws k).1).take i))
          (((order (env.get_todo_methods task.code) im env.draws k).1).getD i dStub)) := by
  refine ⟨?_, ?_, ?_⟩
  · rw [independentPair_eq]
    rfl
  · rw [incrementalPair_eq]
    simp only [mediateOf]
    rw [incEntriesAux_length, order_fst_length]
  · rw [incrementalPair_eq]
    exact incEntriesAux_eq_range env task.code_context _ task.code

/-- C10: when the locator finds no stubs in the task source, independent and
incremental modes make zero model calls and still emit a sample whose
completion is exactly the original code and whose mediate is empty. -/
theorem c10_no_stub_tasks (env : Env) (task : Task) (im : IncMode) (k : Nat)
    (h : env.get_todo_methods task.code = []) :
    independentPair env task =
      (Sample.stubbed task.task_id task.target task.code [], []) ∧
    incrementalPair env task im k =
      (Sample.stubbed task.task_id task.target task.code [], [], k) := by
  constructor
  · rw [independentPair_eq, h]
    rfl
  · rw [incrementalPair_eq, h]
    cases im <;> rfl

/-- Concrete environment whose locator finds no stubs anywhere. -/
def envZ : Env :=
  ⟨fun _ => [], fun s _ _ => s, fun s _ _ _ => s, fun o => o,
   fun c d => (c, d), fun _ => 0⟩

/-- Concrete fully implemented task. -/
def taskZ : Task := ⟨"tz", "Z", "cz", "gz"⟩

/-- Witness for C10 at a concrete stub-free environment and task. -/
theorem c10_witness :
    envZ.get_todo_methods taskZ.code = [] ∧
    (independentPair envZ taskZ =
      (Sample.stubbed taskZ.task_id taskZ.target taskZ.code [], []) ∧
     incrementalPair envZ taskZ IncMode.rand 0 =
      (Sample.stubbed taskZ.task_id taskZ.target taskZ.code [], [], 0)) :=
  ⟨rfl, c10_no_stub_tasks envZ taskZ IncMode.rand 0 rfl⟩

/-- C3: the run processes exactly the Cartesian product of the loaded tasks
with range(num_sample), task-major sample-minor, skipping the first
`init.length` pairs (the samples already persisted at startup); the final
sample list is the persisted list followed by one new sample per processed
pair in that order, so a full uninterrupted run ends with exactly
tasks.length * num_sample samples. -/
theorem c3_cartesian_resume (env : Env) (args : Args) (tasks : List Task)
    (init : List Sample) (k : Nat)
    (h : init.length ≤ tasks.length * args.num_sample) :
    (run env args tasks init k).pairs =
      (runPairs tasks args.num_sample).drop init.length ∧
    (run env args tasks init k).samples = init ++
      newsOf env args ((runPairs tasks args.num_sample).drop init.length) k ∧
    (run env args tasks init k).samples.length =
      tasks.length * args.num_sample := by
  have h2 : (run env args tasks init k).samples = init ++
      newsOf env args ((runPairs tasks args.num_sample).drop init.length) k := by
    rw [run, runLoop_samples]
  refine ⟨?_, h2, ?_⟩
  · rw [run, runLoop_pairs]
    simp
  · rw [h2, List.length_append, newsOf_length, List.length_drop, runPairs_length]
    omega

/-- Trivial total environment used by concrete witnesses of the run loop. -/
def envT : Env :=
  ⟨fun _ => [], fun s _ _ => s, fun s _ _ _ => s, fun o => o,
   fun c d => (c, d), fun _ => 0⟩

/-- Concrete arguments: independent mode, two samples per task. -/
def argsT : Args := ⟨Mode.independent, IncMode.seq, 2⟩

/-- Concrete task for run-loop witnesses. -/
def taskT : Task := ⟨"tt", "T", "ct", "gt"⟩

/-- A pre-persisted sample, as if one pair had already completed. -/
def sampT : Sample := Sample.stubbed taskT.task_id taskT.target taskT.code []

/-- Witness for C3 at one task, num_sample = 2, one already-persisted
sample. -/
theorem c3_witness :
    [sampT].length ≤ [taskT].length * argsT.num_sample ∧
    ((run envT argsT [taskT] [sampT] 0).pairs =
      (runPairs [taskT] argsT.num_sample).drop [sampT].length ∧
    (run envT argsT [taskT] [sampT] 0).samples = [sampT] ++
      newsOf envT argsT ((runPairs [taskT] argsT.num_sample).drop [sampT].length) 0 ∧
    (run envT argsT [taskT] [sampT] 0).samples.length =
      [taskT].length * argsT.num_sample) :=
  ⟨by decide, c3_cartesian_resume envT argsT [taskT] [sampT] 0 (by decide)⟩

/-- C4: after every completed pair the new sample is appended and the entire
in-memory list is persisted as one whole-file overwrite before the next pair
starts: the i-th persisted file state is exactly the startup list followed
by the first i+1 new samples.  Hence previously persisted samples recur
unchanged in every later write (never mutated or deleted), and — in the
failing run — the failed pair contributes no write at all, so no state from
a partially processed pair is ever persisted.  (write_jsonl itself lives
outside src/ and its full-overwrite behaviour is modelled from the spec, see
`runLoop`.) -/
theorem c4_checkpoint_writes (env : Env) (eenv : EEnv) (args : Args)
    (tasks : List Task) (init : List Sample) (k : Nat) :
    (run env args tasks init k).writes =
      (List.range ((runPairs tasks args.num_sample).drop init.length).length).map
        (fun i => init ++
          (newsOf env args ((runPairs tasks args.num_sample).drop init.length) k).take
            (i+1)) ∧
    (runEx eenv args tasks init k).writes =
      (List.range
        ((newsE eenv args ((runPairs tasks args.num_sample).drop init.length) k).length)).map
        (fun i => init ++
          (newsE eenv args ((runPairs tasks args.num_sample).drop init.length) k).take
            (i+1)) := by
  constructor
  · rw [run, runLoop_writes]
    simp
  · rw [runEx, runELoop_writes]
    simp

/-- C7: a parse, stub-not-found or extraction error — or a model-client
error — raised while processing a pair is caught nowhere in the
orchestrator: the run ends at that pair with the error, the samples of all
earlier pairs (startup list included) are exactly what remains in memory and
on disk, the remaining pair list starts with the failed pair and
re-processing that pair reproduces the error, and a restarted run — which
drops as many pairs as there are persisted samples — resumes exactly at the
failed pair, re-attempting it from scratch. -/
theorem c7_uncaught_abort_resume (env : EEnv) (args : Args) (tasks : List Task)
    (init : List Sample) (k : Nat) (e : InfErr)
    (h : (runEx env args tasks init k).err = some e) :
    (runEx env args tasks init k).samples = init ++
      newsE env args ((runPairs tasks args.num_sample).drop init.length) k ∧
    (runEx env args tasks init k).rem ≠ [] ∧
    processPairE env args ((runEx env args tasks init k).rem.headD dPair).1
      (runEx env args tasks init k).k = Except.error e ∧
    (runPairs tasks args.num_sample).drop
      (runEx env args tasks init k).samples.length =
      (runEx env args tasks init k).rem := by
  have key := runELoop_err env args
    ((runPairs tasks args.num_sample).drop init.length) init [] k e h
  refine ⟨runELoop_samples env args _ init [] k, key.1, key.2, ?_⟩
  show (runPairs tasks args.num_sample).drop
      (runELoop env args ((runPairs tasks args.num_sample).drop init.length)
        init [] k).samples.length = _
  rw [runELoop_samples, List.length_append, ← List.drop_drop]
  exact runELoop_rem env args _ init [] k

/-- Failing environment: the locator raises a parse error on every source. -/
def envW : EEnv :=
  ⟨fun _ => Except.error InfErr.parse,
   fun s _ _ => Except.ok s,
   fun s _ _ _ => Except.ok s,
   fun o => Except.ok o,
   fun c d => Except.ok (c, d),
   fun _ => 0⟩

/-- Concrete arguments for the failing run: independent mode, one sample. -/
def argsW : Args := ⟨Mode.independent, IncMode.seq, 1⟩

/-- Concrete task for the failing run. -/
def taskW : Task := ⟨"tw", "W", "cw", "gw"⟩

/-- Witness for C7 at a concrete failing run: the parse error surfaces, the
remaining pair list starts with the failed pair, and re-processing it
reproduces the error. -/
theorem c7_witness :
    (runEx envW argsW [taskW] [] 0).err = some InfErr.parse ∧
    (runEx envW argsW [taskW] [] 0).rem ≠ [] ∧
    processPairE envW argsW ((runEx envW argsW [taskW] [] 0).rem.headD dPair).1
      (runEx envW argsW [taskW] [] 0).k = Except.error InfErr.parse := by
  have h := c7_uncaught_abort_resume envW argsW [taskW] [] 0 InfErr.parse rfl
  exact ⟨rfl, h.2.1, h.2.2.1⟩

/-- C9: resume idempotence — re-running the orchestrator on the sample list
a completed run produced processes no pairs, makes no model calls, appends
no samples, and performs no write at all, so the output file is unchanged. -/
theorem c9_resume_idempotent (env : Env) (args : Args) (tasks : List Task)
    (k j : Nat) :
    (run env args tasks (run env args tasks [] k).samples j).samples =
      (run env args tasks [] k).samples ∧
    (run env args tasks (run env args tasks [] k).samples j).calls = [] ∧
    (run env args tasks (run env args tasks [] k).samples j).writes = [] ∧
    (run env args tasks (run env args tasks [] k).samples j).pairs = [] := by
  have hlen : (run env args tasks [] k).samples.length =
      (runPairs tasks args.num_sample).length := by
    rw [run, runLoop_samples]
    simp [newsOf_length]
  have hdrop : (runPairs tasks args.num_sample).drop
      (run env args tasks [] k).samples.length = [] := by
    rw [hlen]
    exact List.drop_length _
  have hrun : run env args tasks (run env args tasks [] k).samples j =
      RunSt.mk (run env args tasks [] k).samples [] [] [] j := by
    rw [run, hdrop]
    rfl
  rw [hrun]
  exact ⟨rfl, rfl, rfl, rfl⟩

end JavaBench
